import Mathlib

/-!
Verification of the Markdown/Excel/CSV converter in md_excel.py.

Python strings are modelled as lists of characters and Python str.strip
and friends over the six ASCII whitespace characters.  Pandas DataFrames
are modelled by a Table structure holding a header list and a list of
rows of string cells.  Effectful steps (file opening, decoding, library
parse and write calls) are modelled by environment records recording the
outcome of each step; uncaught Python exceptions are modelled by the
error constructor of Except.
-/

/-- Whitespace as recognised by Python str.strip and str.rstrip
(restricted to the six ASCII whitespace characters). -/
def pySpace (c : Char) : Bool :=
  c == ' ' || c == '\t' || c == '\n' || c == '\r' || c == '\x0b' || c == '\x0c'

/-- Python s.lstrip(). -/
def lstrip (s : List Char) : List Char := s.dropWhile pySpace

/-- Python s.rstrip(). -/
def rstrip (s : List Char) : List Char := (s.reverse.dropWhile pySpace).reverse

/-- Python s.strip(). -/
def strip (s : List Char) : List Char := rstrip (lstrip s)

/-- Python s.split(sep) for a one-character separator: the list of chunks
between occurrences of sep; always nonempty. -/
def splitOnChar (sep : Char) : List Char → List (List Char)
  | [] => [[]]
  | c :: rest =>
    match splitOnChar sep rest with
    | [] => [[]]
    | f :: r => if c == sep then [] :: f :: r else (c :: f) :: r

/-- The Table data model of the spec: ordered column names and ordered
rows of string cells (the in-memory counterpart of the DataFrames built
by _parse_table_lines). -/
structure Table where
  headers : List (List Char)
  rows : List (List (List Char))
deriving DecidableEq, Repr

/-- Cell extraction used by _parse_table_lines: split the line on the
pipe character, discard the first and last fields, strip each remaining
field.  This is line.split(chr(124))[1:-1] with strip applied. -/
def innerCells (line : List Char) : List (List Char) :=
  (((splitOnChar '|' line).drop 1).dropLast).map strip

/-- A character matched by the regex class of whitespace, colon, hyphen
used in the separator-row pattern of _parse_table_lines. -/
def sepChar (c : Char) : Bool := pySpace c || c == ':' || c == '-'

/-- One step of the separator regex: a nonempty run of sepChar characters
followed by a pipe; returns the rest of the line after that pipe.  Since
the pipe is not in the character class, the greedy match of the regex is
exactly the maximal run. -/
def runThenBar (l : List Char) : Option (List Char) :=
  if (l.takeWhile sepChar).isEmpty then none
  else if (l.dropWhile sepChar).head? = some '|' then some (l.dropWhile sepChar).tail
  else none

/-- The separator-row test of _parse_table_lines: re.match of pipe,
run, pipe, run, pipe against the start of the line (two cells checked,
anything may follow). -/
def isSepLine (line : List Char) : Bool :=
  if line.head? = some '|' then ((runThenBar line.tail).bind runThenBar).isSome
  else false

/-- The per-line test inside the data loop of _parse_table_lines:
line.strip() truthy and a pipe present in the line. -/
def keepLine (l : List Char) : Bool := !(strip l).isEmpty && l.contains '|'

/-- One iteration of the data loop of _parse_table_lines: the row kept
from one line, if any. -/
def rowOf (headers : List (List Char)) (line : List Char) :
    Option (List (List Char)) :=
  if keepLine line then
    if (innerCells line).length = headers.length then some (innerCells line)
    else none
  else none

/-- _parse_table_lines: header from the first line, optional separator
second line, remaining lines filtered into data rows; none when fewer
than two lines or when the header list is empty. -/
def parse_table_lines (lines : List (List Char)) : Option Table :=
  match lines with
  | line0 :: line1 :: rest =>
    let headers := innerCells line0
    let dataLines := if isSepLine line1 then rest else line1 :: rest
    if headers.isEmpty then none
    else some ⟨headers, dataLines.filterMap (rowOf headers)⟩
  | _ => none

/-- Does the list start with a pipe character (str.startswith on the
stripped line). -/
def startsWithBar (l : List Char) : Bool := l.head? == some '|'

/-- The table-line test of _extract_markdown_tables: the line contains a
pipe and its stripped form starts with a pipe. -/
def isTableLine (l : List Char) : Bool := l.contains '|' && startsWithBar (strip l)

/-- The line scanning loop of _extract_markdown_tables: accumulate
consecutive table lines (each rstripped) into blocks; a non-table line or
the end of input closes the current block. -/
def extractBlocks : List (List Char) → List (List Char) → List (List (List Char))
  | [], cur => if cur.isEmpty then [] else [cur]
  | l :: ls, cur =>
    let l2 := rstrip l
    if isTableLine l2 then extractBlocks ls (cur ++ [l2])
    else if cur.isEmpty then extractBlocks ls []
    else cur :: extractBlocks ls []

/-- _extract_markdown_tables: split the content on newlines, gather the
table blocks, parse each block, keep the successfully parsed Tables in
order. -/
def extract_markdown_tables (content : List Char) : List Table :=
  (extractBlocks (splitOnChar '\n' content) []).filterMap parse_table_lines

/-- Python " | ".join(cells): the cells joined with space, pipe, space. -/
def joinBar : List (List Char) → List Char
  | [] => []
  | [c] => c
  | c :: cs => c ++ ' ' :: '|' :: ' ' :: joinBar cs

/-- One rendered Markdown table line (without the trailing newline):
pipe space, the joined cells, space pipe. -/
def mdRow (cells : List (List Char)) : List Char :=
  ['|', ' '] ++ joinBar cells ++ [' ', '|']

/-- The separator cell emitted by the renderer. -/
def dashCell : List Char := ['-', '-', '-']

/-- The lines emitted for one table by _dataframe_to_md (and by the
table-rendering part of excel_to_md): header row, separator row of three
hyphens per column, one row per data row. -/
def renderLines (t : Table) : List (List Char) :=
  mdRow t.headers :: mdRow (t.headers.map fun _ => dashCell) :: t.rows.map mdRow

/-- The Markdown text produced for one table: each rendered line followed
by a newline, concatenated. -/
def dataframe_to_md_content (t : Table) : List Char :=
  ((renderLines t).map (fun l => l ++ ['\n'])).flatten

/-- pandas df.empty: true when the table has no rows or no columns. -/
def tableEmpty (t : Table) : Bool := t.rows.isEmpty || t.headers.isEmpty

/-- _dataframe_to_md: refuses an empty frame (prints and returns False),
otherwise writes the rendered text (a failing write is caught and yields
False).  Returns the success flag and the text written. -/
def dataframe_to_md (writeOk : Bool) (t : Table) : Bool × List Char :=
  if tableEmpty t then (false, [])
  else if writeOk then (true, dataframe_to_md_content t)
  else (false, [])

/-- The level-2 heading emitted by excel_to_md before each sheet when the
workbook has several sheets: two hash marks, a space, the name, and two
newlines. -/
def sheetHeading (name : List Char) : List Char :=
  '#' :: '#' :: ' ' :: name ++ ['\n', '\n']

/-- The text excel_to_md emits for one sheet: the optional heading, the
rendered table when the frame is nonempty, and a closing newline. -/
def sheetBlock (multi : Bool) (s : List Char × Table) : List Char :=
  (if multi then sheetHeading s.1 else []) ++
    (if tableEmpty s.2 then [] else dataframe_to_md_content s.2) ++ ['\n']

/-- The whole Markdown text built by excel_to_md from the list of named
sheets. -/
def excel_sheets_to_md_content (sheets : List (List Char × Table)) : List Char :=
  (sheets.map (sheetBlock (decide (1 < sheets.length)))).flatten

/-- The fixed priority-ordered candidate encoding list of the converter. -/
def SUPPORTED_ENCODINGS : List String :=
  ["utf-8", "utf-8-sig", "gbk", "gb2312", "gb18030", "big5", "shift_jis",
   "euc-jp", "euc-kr", "cp949", "latin-1", "iso-8859-1", "cp1251", "cp1252",
   "koi8-r", "ascii"]

/-- Environment of detect_encoding for one fixed readable file: whether
the byte sample strictly decodes under a candidate, whether the
100-character prefix re-read succeeds under it, and the statistical
detector result (none models an ImportError of the chardet module; the
reported confidence, a Python float, is modelled as a rational). -/
structure DetectEnv where
  sampleOk : String → Bool
  prefixOk : String → Bool
  chardet : Option (String × ℚ)

/-- Does one candidate pass both decode checks of detect_encoding. -/
def encodingPasses (env : DetectEnv) (e : String) : Bool :=
  env.sampleOk e && env.prefixOk e

/-- detect_encoding: first candidate passing both checks wins; otherwise
the statistical guess when its confidence strictly exceeds 0.7; otherwise
the utf-8 default. -/
def detect_encoding (env : DetectEnv) : String :=
  match SUPPORTED_ENCODINGS.find? (encodingPasses env) with
  | some e => e
  | none =>
    match env.chardet with
    | some (enc, conf) => if (7 : ℚ) / 10 < conf then enc else "utf-8"
    | none => "utf-8"

/-- Environment of md_to_excel: whether the input file can be opened
(detect_encoding opens it outside any enclosing try), whether the guarded
read succeeds, the decoded content, and whether the Excel write (outside
any try) succeeds. -/
structure MdEnv where
  openOk : Bool
  readOk : Bool
  content : List Char
  writeOk : Bool

/-- md_to_excel: an unopenable input makes detect_encoding raise before
the try block (uncaught, modelled as error); a failing guarded read is
caught and returns false; no extracted tables returns false; a failing
Excel write raises outside any try (uncaught); otherwise true. -/
def md_to_excel (env : MdEnv) : Except Unit Bool :=
  if !env.openOk then .error ()
  else if !env.readOk then .ok false
  else if (extract_markdown_tables env.content).isEmpty then .ok false
  else if !env.writeOk then .error ()
  else .ok true

/-- Environment of excel_to_md: whether the guarded workbook read
succeeds, the sheets read, and whether the guarded write succeeds. -/
structure XlEnv where
  readOk : Bool
  sheets : List (List Char × Table)
  writeOk : Bool

/-- excel_to_md: both the workbook read and the file write sit in try
blocks, so every failure is caught and returns false. -/
def excel_to_md (env : XlEnv) : Except Unit Bool :=
  if !env.readOk then .ok false
  else if !env.writeOk then .ok false
  else .ok true

/-- Environment of convert_csv_to_md: whether the input file can be
opened (detect_encoding opens it outside any try), the outcome of
pd.read_csv for each delimiter, and whether the Markdown write succeeds. -/
structure CsvEnv where
  openOk : Bool
  parse : String → Option Table
  writeOk : Bool

/-- The fallback loop of convert_csv_to_md: try each delimiter in order,
stop at the first successful parse. -/
def csvFallback (parse : String → Option Table) : List String → Option Table
  | [] => none
  | s :: rest =>
    match parse s with
    | some df => some df
    | none => csvFallback parse rest

/-- The fixed fallback delimiter list of convert_csv_to_md. -/
def FALLBACK_SEPS : List String := [";", "\t", "|"]

/-- convert_csv_to_md: an unopenable input makes detect_encoding raise
(uncaught); a failing initial parse triggers the fallback loop; when no
delimiter works the function returns false; a successful parse is handed
to _dataframe_to_md whose flag is returned. -/
def convert_csv_to_md (env : CsvEnv) (delimiter : String) : Except Unit Bool :=
  if !env.openOk then .error ()
  else
    match env.parse delimiter with
    | some df => .ok (dataframe_to_md env.writeOk df).1
    | none =>
      match csvFallback env.parse FALLBACK_SEPS with
      | some df => .ok (dataframe_to_md env.writeOk df).1
      | none => .ok false

/-- Concrete detector environment for the first-candidate witness: only
the gbk probe passes. -/
def envFirst : DetectEnv :=
  ⟨fun e => e == "gbk", fun _ => true, none⟩

/-- Concrete detector environment for the fallback witness: no candidate
passes and the statistical detector reports gb2312 with confidence 0.8. -/
def envStat : DetectEnv :=
  ⟨fun _ => false, fun _ => true, some ("gb2312", (4 : ℚ) / 5)⟩

/-- Concrete CSV environment: only the semicolon delimiter parses, and it
yields a table with a header but no rows. -/
def envCsvEmpty : CsvEnv :=
  ⟨true, fun s => if s = ";" then some ⟨[['a']], []⟩ else none, true⟩

/-- The document used by the extraction witnesses. -/
def sampleDoc : List Char :=
  ("| a | b |\n| --- | --- |\n| 1 | 2 |").toList

/-- The table extracted from sampleDoc. -/
def sampleTable : Table := ⟨[['a'], ['b']], [[['1'], ['2']]]⟩

/-! ### Lemmas about the string primitives -/

theorem splitOnChar_cons_eq (sep c : Char) (rest : List Char) :
    splitOnChar sep (c :: rest) =
      match splitOnChar sep rest with
      | [] => [[]]
      | f :: r => if c == sep then [] :: f :: r else (c :: f) :: r := rfl

theorem splitOnChar_ne_nil (sep : Char) (l : List Char) : splitOnChar sep l ≠ [] := by
  induction l with
  | nil => simp [splitOnChar]
  | cons c rest ih =>
    rw [splitOnChar_cons_eq]
    rcases h : splitOnChar sep rest with _ | ⟨f, r⟩
    · simp
    · by_cases hc : c == sep <;> simp [hc]

theorem splitOnChar_sep_cons (sep : Char) (rest : List Char) :
    splitOnChar sep (sep :: rest) = [] :: splitOnChar sep rest := by
  obtain ⟨f, r, h⟩ := List.exists_cons_of_ne_nil (splitOnChar_ne_nil sep rest)
  rw [splitOnChar_cons_eq, h]
  simp

theorem splitOnChar_cons_ne (sep c : Char) (rest f : List Char) (r : List (List Char))
    (hc : ¬ c = sep) (h : splitOnChar sep rest = f :: r) :
    splitOnChar sep (c :: rest) = (c :: f) :: r := by
  rw [splitOnChar_cons_eq, h]
  simp [hc]

theorem splitOnChar_no (sep : Char) (l : List Char) (h : sep ∉ l) :
    splitOnChar sep l = [l] := by
  induction l with
  | nil => rfl
  | cons c rest ih =>
    have hc : ¬ c = sep := by rintro rfl; exact h (List.mem_cons_self c rest)
    exact splitOnChar_cons_ne sep c rest rest []
      hc (ih fun hm => h (List.mem_cons_of_mem _ hm))

theorem splitOnChar_pre (sep : Char) (a b : List Char) (h : sep ∉ a) :
    splitOnChar sep (a ++ sep :: b) = a :: splitOnChar sep b := by
  induction a with
  | nil => simpa using splitOnChar_sep_cons sep b
  | cons c a ih =>
    have hc : ¬ c = sep := by rintro rfl; exact h (List.mem_cons_self c a)
    have hr := ih fun hm => h (List.mem_cons_of_mem _ hm)
    rw [List.cons_append, splitOnChar_cons_ne sep c _ a (splitOnChar sep b) hc hr]

theorem splitOnChar_snoc (sep : Char) (p t : List Char) (h : sep ∉ t) :
    splitOnChar sep (p ++ sep :: t) = splitOnChar sep p ++ [t] := by
  induction p with
  | nil => rw [List.nil_append, splitOnChar_sep_cons, splitOnChar_no sep t h]; rfl
  | cons c p ih =>
    by_cases hc : c = sep
    · subst hc
      rw [List.cons_append, splitOnChar_sep_cons, ih, splitOnChar_sep_cons]
      rfl
    · obtain ⟨f, r, hfr⟩ := List.exists_cons_of_ne_nil (splitOnChar_ne_nil sep p)
      rw [List.cons_append,
        splitOnChar_cons_ne sep c _ f (r ++ [t]) hc (by rw [ih, hfr]; rfl),
        splitOnChar_cons_ne sep c p f r hc hfr]
      rfl

theorem lstrip_cons_of_space (c : Char) (l : List Char) (h : pySpace c = true) :
    lstrip (c :: l) = lstrip l := by
  simp [lstrip, List.dropWhile_cons, h]

theorem lstrip_cons_of_not (c : Char) (l : List Char) (h : pySpace c = false) :
    lstrip (c :: l) = c :: l := by
  simp [lstrip, List.dropWhile_cons, h]

theorem rstrip_snoc_space (l : List Char) (c : Char) (h : pySpace c = true) :
    rstrip (l ++ [c]) = rstrip l := by
  simp [rstrip, List.reverse_append, List.dropWhile_cons, h]

theorem rstrip_snoc_not (l : List Char) (c : Char) (h : pySpace c = false) :
    rstrip (l ++ [c]) = l ++ [c] := by
  simp [rstrip, List.reverse_append, List.dropWhile_cons, h]

theorem strip_cons_of_space (c : Char) (l : List Char) (h : pySpace c = true) :
    strip (c :: l) = strip l := by
  simp [strip, lstrip_cons_of_space c l h]

theorem strip_snoc_space (l : List Char) : strip (l ++ [' ']) = strip l := by
  induction l with
  | nil => decide
  | cons c l ih =>
    by_cases h : pySpace c = true
    · rw [List.cons_append, strip_cons_of_space c _ h, strip_cons_of_space c l h, ih]
    · have h2 : pySpace c = false := by revert h; cases pySpace c <;> simp
      rw [List.cons_append, strip, lstrip_cons_of_not c _ h2,
        show c :: (l ++ [' ']) = (c :: l) ++ [' '] from rfl,
        rstrip_snoc_space _ _ (by decide), strip, lstrip_cons_of_not c l h2]

theorem strip_pad (l : List Char) : strip (' ' :: (l ++ [' '])) = strip l := by
  rw [strip_cons_of_space _ _ (by decide), strip_snoc_space]

theorem takeWhile_run (p : Char → Bool) (a : List Char) (c : Char) (r : List Char)
    (ha : ∀ x ∈ a, p x = true) (hc : p c = false) :
    (a ++ c :: r).takeWhile p = a := by
  induction a with
  | nil => simp [List.takeWhile_cons, hc]
  | cons y a ih =>
    have hy := ha y (List.mem_cons_self y a)
    simp [List.takeWhile_cons, hy,
      ih fun x hx => ha x (List.mem_cons_of_mem _ hx)]

theorem dropWhile_run (p : Char → Bool) (a : List Char) (c : Char) (r : List Char)
    (ha : ∀ x ∈ a, p x = true) (hc : p c = false) :
    (a ++ c :: r).dropWhile p = c :: r := by
  induction a with
  | nil => simp [List.dropWhile_cons, hc]
  | cons y a ih =>
    have hy := ha y (List.mem_cons_self y a)
    simp [List.dropWhile_cons, hy,
      ih fun x hx => ha x (List.mem_cons_of_mem _ hx)]

theorem mem_takeWhile_pred (p : Char → Bool) (l : List Char) (x : Char)
    (h : x ∈ l.takeWhile p) : p x = true := by
  induction l with
  | nil => simp [List.takeWhile] at h
  | cons c l ih =>
    rw [List.takeWhile_cons] at h
    by_cases hc : p c = true
    · rw [if_pos hc] at h
      rcases List.mem_cons.mp h with rfl | h2
      · exact hc
      · exact ih h2
    · rw [if_neg hc] at h
      simp at h

/-! ### Lemmas about the separator test -/

theorem sepChar_bar : sepChar '|' = false := by decide

theorem runThenBar_run (a r : List Char) (ha : a ≠ [])
    (hall : ∀ x ∈ a, sepChar x = true) :
    runThenBar (a ++ '|' :: r) = some r := by
  obtain ⟨y, a2, rfl⟩ := List.exists_cons_of_ne_nil ha
  rw [runThenBar, takeWhile_run sepChar _ '|' r hall sepChar_bar,
    dropWhile_run sepChar _ '|' r hall sepChar_bar]
  simp

theorem runThenBar_some (l r : List Char) (h : runThenBar l = some r) :
    ∃ a, l = a ++ '|' :: r ∧ a ≠ [] ∧ ∀ x ∈ a, sepChar x = true := by
  rw [runThenBar] at h
  split_ifs at h with h1 h2
  · have htail : (l.dropWhile sepChar).tail = r := by injection h
    have hd : l.dropWhile sepChar = '|' :: r := by
      rw [← htail]
      exact (List.cons_head?_tail h2).symm
    refine ⟨l.takeWhile sepChar, ?_, ?_, fun x hx => mem_takeWhile_pred sepChar l x hx⟩
    · conv_lhs => rw [← List.takeWhile_append_dropWhile (p := sepChar) (l := l)]
      rw [hd]
    · intro hnil
      rw [hnil] at h1
      exact h1 rfl

theorem isSepLine_of (a b r : List Char) (ha : a ≠ []) (hb : b ≠ [])
    (hsa : ∀ x ∈ a, sepChar x = true) (hsb : ∀ x ∈ b, sepChar x = true) :
    isSepLine ('|' :: (a ++ '|' :: (b ++ '|' :: r))) = true := by
  have e1 := runThenBar_run a (b ++ '|' :: r) ha hsa
  have e2 := runThenBar_run b r hb hsb
  simp [isSepLine, e1, e2]

theorem isSepLine_iff (l : List Char) :
    isSepLine l = true ↔
      ∃ a b r, l = '|' :: (a ++ '|' :: (b ++ '|' :: r)) ∧ a ≠ [] ∧ b ≠ [] ∧
        (∀ x ∈ a, sepChar x = true) ∧ (∀ x ∈ b, sepChar x = true) := by
  constructor
  · intro h
    rw [isSepLine] at h
    split_ifs at h with hs
    · have hl : l = '|' :: l.tail := (List.cons_head?_tail hs).symm
      obtain ⟨r, hr⟩ := Option.isSome_iff_exists.mp h
      rcases hm : runThenBar l.tail with _ | m
      · rw [hm] at hr; cases hr
      · rw [hm] at hr
        rw [show (some m).bind runThenBar = runThenBar m from rfl] at hr
        obtain ⟨a, hA, haN, haS⟩ := runThenBar_some _ _ hm
        obtain ⟨b, hB, hbN, hbS⟩ := runThenBar_some _ _ hr
        exact ⟨a, b, r, by rw [hl, hA, hB], haN, hbN, haS, hbS⟩
  · rintro ⟨a, b, r, rfl, ha, hb, hsa, hsb⟩
    exact isSepLine_of a b r ha hb hsa hsb

/-! ### Lemmas about rendered table lines -/

theorem mdRow_eq_cons (cells : List (List Char)) :
    mdRow cells = '|' :: (' ' :: joinBar cells ++ [' ', '|']) := by
  simp [mdRow]

theorem rstrip_mdRow (cells : List (List Char)) :
    rstrip (mdRow cells) = mdRow cells := by
  have e : mdRow cells = ('|' :: ' ' :: (joinBar cells ++ [' '])) ++ ['|'] := by
    simp [mdRow]
  rw [e, rstrip_snoc_not _ _ (by decide)]

theorem strip_mdRow (cells : List (List Char)) :
    strip (mdRow cells) = mdRow cells := by
  rw [strip, mdRow_eq_cons, lstrip_cons_of_not _ _ (by decide), ← mdRow_eq_cons,
    rstrip_mdRow]

theorem mdRow_ne_nil (cells : List (List Char)) : mdRow cells ≠ [] := by
  rw [mdRow_eq_cons]
  simp

theorem contains_bar_mdRow (cells : List (List Char)) :
    (mdRow cells).contains '|' = true := by
  rw [mdRow_eq_cons]
  simp [List.contains_cons]

theorem isTableLine_mdRow (cells : List (List Char)) :
    isTableLine (mdRow cells) = true := by
  rw [isTableLine, contains_bar_mdRow, strip_mdRow, mdRow_eq_cons, startsWithBar]
  simp

theorem keepLine_mdRow (cells : List (List Char)) :
    keepLine (mdRow cells) = true := by
  rw [keepLine, contains_bar_mdRow, strip_mdRow, mdRow_eq_cons]
  simp

theorem mem_joinBar (cells : List (List Char)) (x : Char) (h : x ∈ joinBar cells) :
    x = ' ' ∨ x = '|' ∨ ∃ c ∈ cells, x ∈ c := by
  induction cells with
  | nil => simp [joinBar] at h
  | cons c cs ih =>
    cases cs with
    | nil =>
      right; right
      exact ⟨c, List.mem_cons_self c [], by simpa [joinBar] using h⟩
    | cons c2 cs2 =>
      rw [show joinBar (c :: c2 :: cs2) = c ++ ' ' :: '|' :: ' ' :: joinBar (c2 :: cs2)
        from rfl] at h
      rcases List.mem_append.mp h with hc | hrest
      · exact Or.inr (Or.inr ⟨c, List.mem_cons_self c _, hc⟩)
      · simp only [List.mem_cons] at hrest
        rcases hrest with h1 | h1 | h1 | hj
        · exact Or.inl h1
        · exact Or.inr (Or.inl h1)
        · exact Or.inl h1
        · rcases ih hj with h1 | h2 | ⟨d, hd, hxd⟩
          · exact Or.inl h1
          · exact Or.inr (Or.inl h2)
          · exact Or.inr (Or.inr ⟨d, List.mem_cons_of_mem _ hd, hxd⟩)

theorem newline_not_mem_mdRow (cells : List (List Char))
    (h : ∀ c ∈ cells, '\n' ∉ c) : '\n' ∉ mdRow cells := by
  intro hm
  rw [mdRow_eq_cons] at hm
  simp only [List.mem_cons, List.mem_append] at hm
  rcases hm with h1 | ⟨h1 | hj⟩ | h1
  · exact absurd h1 (by decide)
  · exact absurd h1 (by decide)
  · rcases mem_joinBar cells '\n' hj with h1 | h2 | ⟨d, hd, hxd⟩
    · cases h1
    · cases h2
    · exact h d hd hxd
  · rcases h1 with h2 | h2 | h2
    · exact absurd h2 (by decide)
    · exact absurd h2 (by decide)
    · cases h2

theorem bar_not_mem_pad (c : List Char) (h : '|' ∉ c) :
    '|' ∉ ' ' :: (c ++ [' ']) := by
  intro hm
  rcases List.mem_cons.mp hm with h1 | h2
  · exact absurd h1 (by decide)
  · rcases List.mem_append.mp h2 with h3 | h4
    · exact h h3
    · rcases List.mem_cons.mp h4 with h5 | h6
      · exact absurd h5 (by decide)
      · cases h6

theorem splitOnChar_joinBar (cells : List (List Char)) (hne : cells ≠ [])
    (h : ∀ c ∈ cells, '|' ∉ c) :
    splitOnChar '|' (' ' :: joinBar cells ++ [' ', '|']) =
      (cells.map (fun c => ' ' :: (c ++ [' ']))) ++ [[]] := by
  induction cells with
  | nil => cases hne rfl
  | cons c cs ih =>
    cases cs with
    | nil =>
      have e : ' ' :: joinBar [c] ++ [' ', '|'] = (' ' :: (c ++ [' '])) ++ '|' :: [] := by
        simp [joinBar]
      rw [e, splitOnChar_pre '|' _ _ (bar_not_mem_pad c (h c (List.mem_cons_self c [])))]
      rfl
    | cons c2 cs2 =>
      have e : ' ' :: joinBar (c :: c2 :: cs2) ++ [' ', '|'] =
          (' ' :: (c ++ [' '])) ++ '|' :: (' ' :: joinBar (c2 :: cs2) ++ [' ', '|']) := by
        rw [show joinBar (c :: c2 :: cs2) = c ++ ' ' :: '|' :: ' ' :: joinBar (c2 :: cs2)
          from rfl]
        simp
      rw [e, splitOnChar_pre '|' _ _ (bar_not_mem_pad c (h c (List.mem_cons_self c _))),
        ih (by simp) (fun d hd => h d (List.mem_cons_of_mem _ hd))]
      rfl

theorem innerCells_mdRow (cells : List (List Char)) (hne : cells ≠ [])
    (h : ∀ c ∈ cells, '|' ∉ c) :
    innerCells (mdRow cells) = cells.map strip := by
  have e : mdRow cells = '|' :: (' ' :: joinBar cells ++ [' ', '|']) := mdRow_eq_cons cells
  rw [innerCells, e, splitOnChar_sep_cons, splitOnChar_joinBar cells hne h]
  rw [List.drop_one, List.tail_cons, List.dropLast_concat, List.map_map]
  exact List.map_congr_left fun c _ => strip_pad c

theorem sepChar_pad (d : List Char) (h : ∀ x ∈ d, sepChar x = true) :
    ∀ x ∈ ' ' :: (d ++ [' ']), sepChar x = true := by
  intro x hx
  rcases List.mem_cons.mp hx with rfl | hx2
  · decide
  · rcases List.mem_append.mp hx2 with hd | he
    · exact h x hd
    · rcases List.mem_cons.mp he with rfl | h6
      · decide
      · cases h6

theorem isSepLine_mdRow_sep (d1 d2 : List Char) (ds : List (List Char))
    (h1 : ∀ x ∈ d1, sepChar x = true) (h2 : ∀ x ∈ d2, sepChar x = true) :
    isSepLine (mdRow (d1 :: d2 :: ds)) = true := by
  have e1 : mdRow (d1 :: d2 :: ds) =
      '|' :: ((' ' :: (d1 ++ [' '])) ++ '|' :: (' ' :: joinBar (d2 :: ds) ++ [' ', '|'])) := by
    rw [mdRow_eq_cons,
      show joinBar (d1 :: d2 :: ds) = d1 ++ ' ' :: '|' :: ' ' :: joinBar (d2 :: ds) from rfl]
    simp
  obtain ⟨r, e2⟩ : ∃ r, ' ' :: joinBar (d2 :: ds) ++ [' ', '|'] =
      (' ' :: (d2 ++ [' '])) ++ '|' :: r := by
    cases ds with
    | nil => exact ⟨[], by simp [joinBar]⟩
    | cons d3 ds2 =>
      refine ⟨' ' :: joinBar (d3 :: ds2) ++ [' ', '|'], ?_⟩
      rw [show joinBar (d2 :: d3 :: ds2) = d2 ++ ' ' :: '|' :: ' ' :: joinBar (d3 :: ds2)
        from rfl]
      simp
  rw [e1, e2]
  exact isSepLine_of _ _ r (by simp) (by simp) (sepChar_pad d1 h1) (sepChar_pad d2 h2)

theorem sepChar_dashCell : ∀ x ∈ dashCell, sepChar x = true := by decide

/-! ### Lemmas about extraction of the rendered text -/

theorem splitOnChar_render (ls : List (List Char)) (h : ∀ l ∈ ls, '\n' ∉ l) :
    splitOnChar '\n' ((ls.map (fun l => l ++ ['\n'])).flatten) = ls ++ [[]] := by
  induction ls with
  | nil => rfl
  | cons l ls ih =>
    simp only [List.map_cons, List.flatten_cons]
    rw [show (l ++ ['\n']) ++ (ls.map (fun l => l ++ ['\n'])).flatten =
        l ++ '\n' :: (ls.map (fun l => l ++ ['\n'])).flatten by simp,
      splitOnChar_pre '\n' l _ (h l (List.mem_cons_self l ls)),
      ih fun x hx => h x (List.mem_cons_of_mem _ hx)]
    rfl

theorem extractBlocks_run (ls : List (List Char)) (acc : List (List Char))
    (h : ∀ l ∈ ls, rstrip l = l ∧ isTableLine l = true) (hne : acc ≠ []) :
    extractBlocks (ls ++ [[]]) acc = [acc ++ ls] := by
  induction ls generalizing acc with
  | nil =>
    have hacc : acc.isEmpty = false := by
      cases acc
      · cases hne rfl
      · rfl
    simp [extractBlocks, rstrip, isTableLine, startsWithBar, hacc]
  | cons l ls ih =>
    have hl := h l (List.mem_cons_self l ls)
    rw [List.cons_append,
      show extractBlocks (l :: (ls ++ [[]])) acc =
        (if isTableLine (rstrip l) then extractBlocks (ls ++ [[]]) (acc ++ [rstrip l])
         else if acc.isEmpty then extractBlocks (ls ++ [[]]) []
         else acc :: extractBlocks (ls ++ [[]]) []) from rfl,
      hl.1, if_pos hl.2,
      ih (acc ++ [l]) (fun x hx => h x (List.mem_cons_of_mem _ hx)) (by simp)]
    simp

theorem rowOf_mdRow (hd : List (List Char)) (r : List (List Char))
    (hlen : r.length = hd.length) (hp : ∀ c ∈ r, '|' ∉ c) (hk : 0 < hd.length) :
    rowOf (hd.map strip) (mdRow r) = some (r.map strip) := by
  have hr : r ≠ [] := by
    intro h0
    rw [h0] at hlen
    simp only [List.length_nil] at hlen
    omega
  have hcells : innerCells (mdRow r) = r.map strip := innerCells_mdRow r hr hp
  rw [rowOf, keepLine_mdRow, if_pos rfl, hcells]
  simp [hlen]

theorem filterMap_rowOf_render (hd : List (List Char))
    (rows : List (List (List Char)))
    (hlen : ∀ r ∈ rows, r.length = hd.length)
    (hp : ∀ r ∈ rows, ∀ c ∈ r, '|' ∉ c) (hk : 0 < hd.length) :
    (rows.map mdRow).filterMap (rowOf (hd.map strip)) =
      rows.map (fun r => r.map strip) := by
  induction rows with
  | nil => rfl
  | cons r rows ih =>
    simp only [List.map_cons, List.filterMap_cons,
      rowOf_mdRow hd r (hlen r (List.mem_cons_self r rows))
        (hp r (List.mem_cons_self r rows)) hk]
    rw [ih (fun x hx => hlen x (List.mem_cons_of_mem _ hx))
      (fun x hx => hp x (List.mem_cons_of_mem _ hx))]

theorem parse_renderLines (t : Table) (hk : 2 ≤ t.headers.length)
    (hrow : ∀ r ∈ t.rows, r.length = t.headers.length)
    (hph : ∀ c ∈ t.headers, '|' ∉ c)
    (hpr : ∀ r ∈ t.rows, ∀ c ∈ r, '|' ∉ c) :
    parse_table_lines (renderLines t) =
      some ⟨t.headers.map strip, t.rows.map (fun r => r.map strip)⟩ := by
  obtain ⟨h1, tl, e1⟩ : ∃ h1 tl, t.headers = h1 :: tl := by
    cases he : t.headers with
    | nil => rw [he] at hk; cases hk
    | cons a b => exact ⟨a, b, rfl⟩
  obtain ⟨h2, tl2, e2⟩ : ∃ h2 tl2, tl = h2 :: tl2 := by
    cases he : tl with
    | nil => rw [he] at e1; rw [e1] at hk; cases hk with
      | step hs => cases hs
    | cons a b => exact ⟨a, b, rfl⟩
  have hsep : isSepLine (mdRow (t.headers.map fun _ => dashCell)) = true := by
    rw [e1, e2, List.map_cons, List.map_cons]
    exact isSepLine_mdRow_sep dashCell dashCell _ sepChar_dashCell sepChar_dashCell
  have hhd : innerCells (mdRow t.headers) = t.headers.map strip :=
    innerCells_mdRow t.headers (by rw [e1]; simp) hph
  have hnem : (t.headers.map strip).isEmpty = false := by
    rw [e1]
    rfl
  rw [renderLines, parse_table_lines]
  simp only [hhd, hsep, if_true, hnem, Bool.false_eq_true, if_false]
  rw [filterMap_rowOf_render t.headers t.rows hrow hpr (by omega)]

theorem extractBlocks_step (l : List Char) (ls cur : List (List Char)) :
    extractBlocks (l :: ls) cur =
      if isTableLine (rstrip l) then extractBlocks ls (cur ++ [rstrip l])
      else if cur.isEmpty then extractBlocks ls []
      else cur :: extractBlocks ls [] := rfl

theorem extract_of_renderLines (t : Table)
    (hnl : ∀ l ∈ renderLines t, '\n' ∉ l) :
    extract_markdown_tables (dataframe_to_md_content t) =
      (parse_table_lines (renderLines t)).toList := by
  have htab : ∀ l ∈ renderLines t, rstrip l = l ∧ isTableLine l = true := by
    intro l hl
    rw [renderLines] at hl
    rcases List.mem_cons.mp hl with rfl | hl2
    · exact ⟨rstrip_mdRow _, isTableLine_mdRow _⟩
    rcases List.mem_cons.mp hl2 with rfl | hl3
    · exact ⟨rstrip_mdRow _, isTableLine_mdRow _⟩
    · rcases List.mem_map.mp hl3 with ⟨r, hrm, rfl⟩
      exact ⟨rstrip_mdRow _, isTableLine_mdRow _⟩
  have hfin : extractBlocks (renderLines t ++ [[]]) [] = [renderLines t] := by
    have h0 := htab (mdRow t.headers)
      (by rw [renderLines]; exact List.mem_cons_self _ _)
    rw [renderLines, List.cons_append, extractBlocks_step, h0.1, if_pos h0.2,
      show ([] : List (List Char)) ++ [mdRow t.headers] = [mdRow t.headers] from rfl,
      extractBlocks_run _ _
        (fun x hx => htab x (by rw [renderLines]; exact List.mem_cons_of_mem _ hx))
        (by simp)]
    rfl
  rw [extract_markdown_tables, dataframe_to_md_content, splitOnChar_render _ hnl, hfin]
  cases hp : parse_table_lines (renderLines t) <;>
    simp [List.filterMap_cons, hp]

/-! ### Claim theorems -/

/-- C1 (counterexample): a one-column Table with pipe-free cells does not
round-trip: the rendered separator row fails the two-cell separator
pattern, is kept as a data row, and re-extraction yields a Table with an
extra three-hyphen row. -/
theorem markdown_roundtrip_cx :
    extract_markdown_tables (dataframe_to_md_content ⟨[['a']], [[['x']]]⟩) =
      [⟨[['a']], [[['-', '-', '-']], [['x']]]⟩] ∧
    extract_markdown_tables (dataframe_to_md_content ⟨[['a']], [[['x']]]⟩) ≠
      [⟨[['a']], [[['x']]]⟩] := by
  constructor
  · decide
  · decide

/-- C1 (amended): for every Table with at least two columns, all of whose
column names and cells contain no pipe and no newline character,
rendering the table to Markdown and running extraction on the rendered
text yields exactly one Table, whose column names and rows are the
originals with surrounding whitespace trimmed from each cell. -/
theorem markdown_roundtrip_amended (t : Table) (hk : 2 ≤ t.headers.length)
    (hrow : ∀ r ∈ t.rows, r.length = t.headers.length)
    (hph : ∀ c ∈ t.headers, '|' ∉ c ∧ '\n' ∉ c)
    (hpr : ∀ r ∈ t.rows, ∀ c ∈ r, '|' ∉ c ∧ '\n' ∉ c) :
    extract_markdown_tables (dataframe_to_md_content t) =
      [⟨t.headers.map strip, t.rows.map (fun r => r.map strip)⟩] := by
  have hnl : ∀ l ∈ renderLines t, '\n' ∉ l := by
    intro l hl
    rw [renderLines] at hl
    rcases List.mem_cons.mp hl with rfl | hl2
    · exact newline_not_mem_mdRow _ (fun c hc => (hph c hc).2)
    rcases List.mem_cons.mp hl2 with rfl | hl3
    · refine newline_not_mem_mdRow _ ?_
      intro c hc
      rcases List.mem_map.mp hc with ⟨x, hx, rfl⟩
      decide
    · rcases List.mem_map.mp hl3 with ⟨r, hrm, rfl⟩
      exact newline_not_mem_mdRow _ (fun c hc => (hpr r hrm c hc).2)
  rw [extract_of_renderLines t hnl,
    parse_renderLines t hk hrow (fun c hc => (hph c hc).1)
      (fun r hr c hc => (hpr r hr c hc).1)]
  rfl

/-- C1 (witness): the amended round-trip instantiated on a concrete
two-column table. -/
theorem markdown_roundtrip_witness :
    extract_markdown_tables (dataframe_to_md_content ⟨[['a'], ['b']], [[['x'], ['y']]]⟩) =
      [⟨[['a'], ['b']], [[['x'], ['y']]]⟩] := by
  have := markdown_roundtrip_amended ⟨[['a'], ['b']], [[['x'], ['y']]]⟩
    (by decide) (by decide) (by decide) (by decide)
  simpa using this

/-- C2 (counterexample): in a one-column block whose second line is a
pipe-delimited separator-looking cell, the second line is not consumed as
a separator: it survives as a data row of the parsed Table. -/
theorem separator_rule_cx :
    parse_table_lines
        [['|', ' ', 'a', ' ', '|'],
         ['|', ' ', '-', '-', '-', ' ', '|'],
         ['|', ' ', 'x', ' ', '|']] =
      some ⟨[['a']], [[['-', '-', '-']], [['x']]]⟩ ∧
    parse_table_lines
        [['|', ' ', 'a', ' ', '|'],
         ['|', ' ', '-', '-', '-', ' ', '|'],
         ['|', ' ', 'x', ' ', '|']] ≠
      some ⟨[['a']], [[['x']]]⟩ := by
  constructor
  · decide
  · decide

/-- C2 (amended): the second line of a block is consumed as the separator
exactly when it starts with a pipe followed by at least two further
pipe-terminated cells whose contents are nonempty runs of whitespace,
colons and hyphens; only those first two cells are inspected (anything
may follow the third pipe), so a one-column separator line is instead
treated as a data-row candidate. -/
theorem separator_rule_amended :
    (∀ l : List Char, isSepLine l = true ↔
      ∃ a b r, l = '|' :: (a ++ '|' :: (b ++ '|' :: r)) ∧ a ≠ [] ∧ b ≠ [] ∧
        (∀ x ∈ a, sepChar x = true) ∧ (∀ x ∈ b, sepChar x = true)) ∧
    (∀ line0 line1 : List Char, ∀ rest : List (List Char),
      parse_table_lines (line0 :: line1 :: rest) =
        if (innerCells line0).isEmpty then none
        else some ⟨innerCells line0,
          (if isSepLine line1 then rest else line1 :: rest).filterMap
            (rowOf (innerCells line0))⟩) :=
  ⟨isSepLine_iff, fun _ _ _ => rfl⟩

theorem filterMap_rowOf_eq (h : List (List Char)) (dls : List (List Char)) :
    dls.filterMap (rowOf h) =
      ((dls.filter keepLine).map innerCells).filter
        (fun r => decide (r.length = h.length)) := by
  induction dls with
  | nil => rfl
  | cons l dls ih =>
    by_cases hk : keepLine l = true
    · by_cases hlen : (innerCells l).length = h.length
      · simp [rowOf, hk, hlen, List.filterMap_cons, List.filter_cons, ih]
      · simp [rowOf, hk, hlen, List.filterMap_cons, List.filter_cons, ih]
    · simp [rowOf, hk, List.filterMap_cons, List.filter_cons, ih]

/-- C3: every Table produced by extraction satisfies the width invariant
(each row has exactly as many cells as the header), and its rows are
exactly the candidate rows of its block (the cells of each nonblank
pipe-containing data line, in order) filtered by that exact width:
mismatched candidates are dropped, never padded, truncated or repaired,
and the kept rows stay in original order. -/
theorem rows_width_invariant (content : List Char) (t : Table)
    (ht : t ∈ extract_markdown_tables content) :
    (∀ r ∈ t.rows, r.length = t.headers.length) ∧
    ∃ line0 line1 rest,
      (line0 :: line1 :: rest) ∈ extractBlocks (splitOnChar '\n' content) [] ∧
      parse_table_lines (line0 :: line1 :: rest) = some t ∧
      t.rows = (((if isSepLine line1 then rest else line1 :: rest).filter
          keepLine).map innerCells).filter
        (fun r => decide (r.length = t.headers.length)) := by
  rw [extract_markdown_tables] at ht
  obtain ⟨lines, hmem, hparse⟩ := List.mem_filterMap.mp ht
  rcases lines with _ | ⟨l0, _ | ⟨l1, rest⟩⟩
  · cases hparse
  · cases hparse
  · have hps := hparse
    rw [parse_table_lines] at hparse
    by_cases hemp : (innerCells l0).isEmpty = true
    · rw [if_pos hemp] at hparse
      cases hparse
    · rw [if_neg hemp] at hparse
      have ht2 : t = ⟨innerCells l0,
          ((if isSepLine l1 then rest else l1 :: rest).filterMap
            (rowOf (innerCells l0)))⟩ := by
        injection hparse with h
        exact h.symm
      have hrows : t.rows = (if isSepLine l1 then rest else l1 :: rest).filterMap
          (rowOf (innerCells l0)) := by rw [ht2]
      have hhead : t.headers = innerCells l0 := by rw [ht2]
      constructor
      · intro r hr
        rw [hrows, filterMap_rowOf_eq] at hr
        have h4 := List.of_mem_filter hr
        rw [hhead]
        simpa using h4
      · refine ⟨l0, l1, rest, hmem, hps, ?_⟩
        rw [hrows, hhead]
        exact filterMap_rowOf_eq (innerCells l0) (if isSepLine l1 then rest else l1 :: rest)

/-- C3 (witness): the invariant instantiated on a concrete document with
one two-column table. -/
theorem rows_width_invariant_witness :
    sampleTable ∈ extract_markdown_tables sampleDoc ∧
      ((∀ r ∈ sampleTable.rows, r.length = sampleTable.headers.length) ∧
       ∃ line0 line1 rest,
         (line0 :: line1 :: rest) ∈ extractBlocks (splitOnChar '\n' sampleDoc) [] ∧
         parse_table_lines (line0 :: line1 :: rest) = some sampleTable ∧
         sampleTable.rows = (((if isSepLine line1 then rest else line1 :: rest).filter
             keepLine).map innerCells).filter
           (fun r => decide (r.length = sampleTable.headers.length))) :=
  ⟨by decide, rows_width_invariant sampleDoc sampleTable (by decide)⟩

/-- C4: whenever some candidate in the fixed priority list passes both
decode checks, detect_encoding returns the first passing candidate, its
result does not depend on the statistical detector at all, and if the
first candidate utf-8 passes then utf-8 itself is returned (the
pure-ASCII case). -/
theorem detect_first_candidate (env : DetectEnv) (e : String)
    (he : SUPPORTED_ENCODINGS.find? (encodingPasses env) = some e) :
    detect_encoding env = e ∧
    (∀ c, detect_encoding ⟨env.sampleOk, env.prefixOk, c⟩ = e) ∧
    (encodingPasses env "utf-8" = true → e = "utf-8") := by
  refine ⟨?_, ?_, ?_⟩
  · rw [detect_encoding, he]
  · intro c
    have hsame : encodingPasses (⟨env.sampleOk, env.prefixOk, c⟩ : DetectEnv) =
        encodingPasses env := rfl
    rw [detect_encoding, hsame, he]
  · intro hpass
    rw [show SUPPORTED_ENCODINGS = "utf-8" :: SUPPORTED_ENCODINGS.tail from rfl,
      List.find?_cons, hpass] at he
    injection he with h2
    exact h2.symm

/-- C4 (witness): first-candidate selection on an environment where only
the gbk probe passes. -/
theorem detect_first_candidate_witness :
    SUPPORTED_ENCODINGS.find? (encodingPasses envFirst) = some "gbk" ∧
      (detect_encoding envFirst = "gbk" ∧
       (∀ c, detect_encoding ⟨envFirst.sampleOk, envFirst.prefixOk, c⟩ = "gbk") ∧
       (encodingPasses envFirst "utf-8" = true → "gbk" = "utf-8")) :=
  ⟨by decide, detect_first_candidate envFirst "gbk" (by decide)⟩

/-- C5: when no candidate in the fixed list passes both checks,
detect_encoding returns the statistical guess exactly when the detector
is available and reports confidence strictly above 0.7; with the detector
unavailable, or with confidence at most 0.7, it returns the utf-8
default. -/
theorem detect_fallback_rule (env : DetectEnv)
    (h : ∀ enc ∈ SUPPORTED_ENCODINGS, ¬ encodingPasses env enc = true) :
    (env.chardet = none → detect_encoding env = "utf-8") ∧
    (∀ enc conf, env.chardet = some (enc, conf) →
      ((7 : ℚ) / 10 < conf → detect_encoding env = enc) ∧
      (conf ≤ (7 : ℚ) / 10 → detect_encoding env = "utf-8")) := by
  have hfind : SUPPORTED_ENCODINGS.find? (encodingPasses env) = none :=
    List.find?_eq_none.mpr h
  refine ⟨?_, ?_⟩
  · intro hc
    rw [detect_encoding, hfind, hc]
  · intro enc conf hc
    constructor
    · intro hlt
      rw [detect_encoding, hfind, hc]
      show (if (7 : ℚ) / 10 < conf then enc else "utf-8") = enc
      rw [if_pos hlt]
    · intro hle
      rw [detect_encoding, hfind, hc]
      show (if (7 : ℚ) / 10 < conf then enc else "utf-8") = "utf-8"
      rw [if_neg (not_lt.mpr hle)]

/-- C5 (witness): the statistical fallback instantiated on an environment
where nothing passes and the detector reports confidence 0.8. -/
theorem detect_fallback_rule_witness :
    (∀ enc ∈ SUPPORTED_ENCODINGS, ¬ encodingPasses envStat enc = true) ∧
      detect_encoding envStat = "gb2312" :=
  ⟨by decide,
    ((detect_fallback_rule envStat (by decide)).2 "gb2312" ((4 : ℚ) / 5) rfl).1
      (by norm_num)⟩

/-- C6 (counterexample): md_to_excel on an input file that cannot be
opened raises out of detect_encoding before any try block: the operation
ends in an uncaught exception instead of returning False. -/
theorem error_containment_cx :
    md_to_excel ⟨false, true, [], true⟩ = Except.error () ∧
    ∀ b, md_to_excel ⟨false, true, [], true⟩ ≠ Except.ok b := by
  constructor
  · rfl
  · intro b h
    cases h

/-- C6 (amended): excel_to_md catches every failure and returns a Boolean;
md_to_excel catches a failing guarded read and missing tables (returning
False) but lets an encoding-detection open error and an Excel write error
propagate uncaught; convert_csv_to_md always returns a Boolean except for
an encoding-detection open error, which propagates uncaught. -/
theorem error_containment_amended :
    (∀ env : XlEnv, excel_to_md env = Except.ok (env.readOk && env.writeOk)) ∧
    (∀ env : MdEnv, env.openOk = false → md_to_excel env = Except.error ()) ∧
    (∀ env : MdEnv, env.openOk = true → env.readOk = false →
      md_to_excel env = Except.ok false) ∧
    (∀ env : MdEnv, env.openOk = true → env.readOk = true →
      (extract_markdown_tables env.content).isEmpty = true →
      md_to_excel env = Except.ok false) ∧
    (∀ env : MdEnv, env.openOk = true → env.readOk = true →
      (extract_markdown_tables env.content).isEmpty = false →
      md_to_excel env = (if env.writeOk then Except.ok true else Except.error ())) ∧
    (∀ (env : CsvEnv) (d : String), env.openOk = false →
      convert_csv_to_md env d = Except.error ()) ∧
    (∀ (env : CsvEnv) (d : String), env.openOk = true →
      ∃ b, convert_csv_to_md env d = Except.ok b) := by
  refine ⟨?_, ?_, ?_, ?_, ?_, ?_, ?_⟩
  · intro env
    rcases env with ⟨r, s, w⟩
    cases r <;> cases w <;> rfl
  · intro env h
    rcases env with ⟨o, r, c, w⟩
    cases h
    rfl
  · intro env ho hr
    rcases env with ⟨o, r, c, w⟩
    cases ho
    cases hr
    rfl
  · intro env ho hr hemp
    rcases env with ⟨o, r, c, w⟩
    cases ho
    cases hr
    simp [md_to_excel, hemp]
  · intro env ho hr hemp
    rcases env with ⟨o, r, c, w⟩
    cases ho
    cases hr
    cases w <;> simp [md_to_excel, hemp]
  · intro env d h
    rcases env with ⟨o, p, w⟩
    cases h
    rfl
  · intro env d ho
    rcases env with ⟨o, p, w⟩
    cases ho
    rw [convert_csv_to_md]
    simp only [Bool.not_true, Bool.false_eq_true, if_false]
    cases p d
    · cases csvFallback p FALLBACK_SEPS
      · exact ⟨false, rfl⟩
      · exact ⟨_, rfl⟩
    · exact ⟨_, rfl⟩

/-- C7 (counterexample): with the comma parse failing and the semicolon
fallback succeeding on a header-only table, convert_csv_to_md still
returns False (the parsed frame is empty), so False is not returned only
when all three fallbacks fail. -/
theorem csv_fallback_cx :
    convert_csv_to_md envCsvEmpty "," = Except.ok false ∧
    envCsvEmpty.parse ";" = some ⟨[['a']], []⟩ := by
  constructor
  · rfl
  · rfl

/-- C7 (amended): on an openable file, a failing initial parse retries
the delimiters semicolon, tab, pipe in exactly that order and stops at
the first success; if all three fail the operation returns False; a
successful parse (initial or fallback) is handed to the Markdown writer,
which returns True only when the parsed table is nonempty and the write
succeeds. -/
theorem csv_fallback_amended :
    (∀ (env : CsvEnv) (d : String) (df : Table), env.openOk = true →
      env.parse d = some df →
      convert_csv_to_md env d = Except.ok (dataframe_to_md env.writeOk df).1) ∧
    (∀ (env : CsvEnv) (d : String) (df : Table), env.openOk = true →
      env.parse d = none → env.parse ";" = some df →
      convert_csv_to_md env d = Except.ok (dataframe_to_md env.writeOk df).1) ∧
    (∀ (env : CsvEnv) (d : String) (df : Table), env.openOk = true →
      env.parse d = none → env.parse ";" = none → env.parse "\t" = some df →
      convert_csv_to_md env d = Except.ok (dataframe_to_md env.writeOk df).1) ∧
    (∀ (env : CsvEnv) (d : String) (df : Table), env.openOk = true →
      env.parse d = none → env.parse ";" = none → env.parse "\t" = none →
      env.parse "|" = some df →
      convert_csv_to_md env d = Except.ok (dataframe_to_md env.writeOk df).1) ∧
    (∀ (env : CsvEnv) (d : String), env.openOk = true →
      env.parse d = none → env.parse ";" = none → env.parse "\t" = none →
      env.parse "|" = none → convert_csv_to_md env d = Except.ok false) ∧
    (∀ (env : CsvEnv) (d : String) (df : Table), env.openOk = true →
      env.parse d = none → env.parse ";" = some df → tableEmpty df = false →
      env.writeOk = true → convert_csv_to_md env d = Except.ok true) := by
  have hstep : ∀ (p : String → Option Table) (s : String) (ss : List String),
      csvFallback p (s :: ss) =
        match p s with
        | some df => some df
        | none => csvFallback p ss := fun _ _ _ => rfl
  refine ⟨?_, ?_, ?_, ?_, ?_, ?_⟩
  · intro env d df ho hp
    rcases env with ⟨o, p, w⟩
    cases ho
    have hp2 : p d = some df := hp
    rw [convert_csv_to_md]
    simp only [Bool.not_true, Bool.false_eq_true, if_false]
    rw [hp2]
  · intro env d df ho hp hs
    rcases env with ⟨o, p, w⟩
    cases ho
    have hp2 : p d = none := hp
    have hs2 : p ";" = some df := hs
    rw [convert_csv_to_md]
    simp only [Bool.not_true, Bool.false_eq_true, if_false]
    rw [hp2, FALLBACK_SEPS, hstep, hs2]
  · intro env d df ho hp hs ht
    rcases env with ⟨o, p, w⟩
    cases ho
    have hp2 : p d = none := hp
    have hs2 : p ";" = none := hs
    have ht2 : p "\t" = some df := ht
    rw [convert_csv_to_md]
    simp only [Bool.not_true, Bool.false_eq_true, if_false]
    rw [hp2, FALLBACK_SEPS, hstep, hs2, hstep, ht2]
  · intro env d df ho hp hs ht hb
    rcases env with ⟨o, p, w⟩
    cases ho
    have hp2 : p d = none := hp
    have hs2 : p ";" = none := hs
    have ht2 : p "\t" = none := ht
    have hb2 : p "|" = some df := hb
    rw [convert_csv_to_md]
    simp only [Bool.not_true, Bool.false_eq_true, if_false]
    rw [hp2, FALLBACK_SEPS, hstep, hs2, hstep, ht2, hstep, hb2]
  · intro env d ho hp hs ht hb
    rcases env with ⟨o, p, w⟩
    cases ho
    have hp2 : p d = none := hp
    have hs2 : p ";" = none := hs
    have ht2 : p "\t" = none := ht
    have hb2 : p "|" = none := hb
    rw [convert_csv_to_md]
    simp only [Bool.not_true, Bool.false_eq_true, if_false]
    rw [hp2, FALLBACK_SEPS, hstep, hs2, hstep, ht2, hstep, hb2]
    rfl
  · intro env d df ho hp hs hne hw
    rcases env with ⟨o, p, w⟩
    cases ho
    cases hw
    have hp2 : p d = none := hp
    have hs2 : p ";" = some df := hs
    rw [convert_csv_to_md]
    simp only [Bool.not_true, Bool.false_eq_true, if_false]
    rw [hp2, FALLBACK_SEPS, hstep, hs2]
    show Except.ok (dataframe_to_md true df).1 = Except.ok true
    rw [dataframe_to_md, if_neg (by rw [hne]; intro hx; cases hx)]
    rfl

/-- C8: the Markdown rendered for a two-column table with a single data
row is exactly pipe-space-h1-space-pipe-space-h2-space-pipe-newline, the
three-hyphen separator row, and the data row, with a trailing newline and
no trailing blank line. -/
theorem render_two_col_exact (h1 h2 x y : List Char) :
    dataframe_to_md true ⟨[h1, h2], [[x, y]]⟩ =
      (true,
        ['|', ' '] ++ h1 ++ [' ', '|', ' '] ++ h2 ++
          [' ', '|', '\n', '|', ' ', '-', '-', '-', ' ', '|', ' ', '-', '-', '-',
           ' ', '|', '\n', '|', ' '] ++ x ++ [' ', '|', ' '] ++ y ++
          [' ', '|', '\n']) := by
  simp [dataframe_to_md, tableEmpty, dataframe_to_md_content, renderLines, mdRow,
    joinBar, dashCell]

/-- C8 (witness): the exact rendering instantiated on concrete one-letter
headers and cells. -/
theorem render_two_col_exact_witness :
    dataframe_to_md true ⟨[['c'], ['d']], [[['x'], ['y']]]⟩ =
      (true,
        ['|', ' '] ++ ['c'] ++ [' ', '|', ' '] ++ ['d'] ++
          [' ', '|', '\n', '|', ' ', '-', '-', '-', ' ', '|', ' ', '-', '-', '-',
           ' ', '|', '\n', '|', ' '] ++ ['x'] ++ [' ', '|', ' '] ++ ['y'] ++
          [' ', '|', '\n']) :=
  render_two_col_exact ['c'] ['d'] ['x'] ['y']

/-- C9: a Table with no data rows counts as empty even with a nonempty
header: _dataframe_to_md refuses it (False, nothing written), and
excel_to_md emits no heading-free table block for such a sheet, only the
closing newline. -/
theorem empty_table_render (t : Table) (name : List Char) (h : t.rows = []) :
    tableEmpty t = true ∧
    (∀ w, dataframe_to_md w t = (false, [])) ∧
    (∀ m, sheetBlock m (name, t) = (if m then sheetHeading name else []) ++ ['\n']) ∧
    excel_sheets_to_md_content [(name, t)] = ['\n'] := by
  have he : tableEmpty t = true := by
    rw [tableEmpty, h]
    rfl
  refine ⟨he, ?_, ?_, ?_⟩
  · intro w
    rw [dataframe_to_md, if_pos he]
  · intro m
    simp [sheetBlock, he]
  · simp [excel_sheets_to_md_content, sheetBlock, he]

/-- C9 (witness): the header-only table instantiated concretely. -/
theorem empty_table_render_witness :
    (⟨[['a']], []⟩ : Table).rows = [] ∧
      (tableEmpty ⟨[['a']], []⟩ = true ∧
       (∀ w, dataframe_to_md w ⟨[['a']], []⟩ = (false, [])) ∧
       (∀ m, sheetBlock m (['s'], ⟨[['a']], []⟩) =
         (if m then sheetHeading ['s'] else []) ++ ['\n']) ∧
       excel_sheets_to_md_content [(['s'], ⟨[['a']], []⟩)] = ['\n']) :=
  ⟨rfl, empty_table_render ⟨[['a']], []⟩ ['s'] rfl⟩

/-- C10: cell splitting drops the first and the last pipe-delimited field
unconditionally, so everything after the final pipe of a line is
discarded: the cells of a line are unchanged when its tail after the last
pipe is removed, and the line pipe-space-a-space-pipe-space-b yields the
single cell a. -/
theorem split_discards_ends (p tail : List Char) (h : '|' ∉ tail) :
    innerCells (p ++ '|' :: tail) = innerCells (p ++ ['|']) ∧
    innerCells ['|', ' ', 'a', ' ', '|', ' ', 'b'] = [['a']] := by
  constructor
  · obtain ⟨f, r, hfr⟩ := List.exists_cons_of_ne_nil (splitOnChar_ne_nil '|' p)
    rw [innerCells, innerCells, splitOnChar_snoc '|' p tail h,
      show p ++ ['|'] = p ++ '|' :: [] from rfl,
      splitOnChar_snoc '|' p [] (by intro hx; cases hx), hfr]
    simp [List.dropLast_concat]
  · decide

/-- C10 (witness): the discard property instantiated on the concrete line
pipe-space-a-space-pipe-space-b. -/
theorem split_discards_ends_witness :
    ('|' ∉ [' ', 'b']) ∧
      (innerCells (['|', ' ', 'a', ' '] ++ '|' :: [' ', 'b']) =
        innerCells (['|', ' ', 'a', ' '] ++ ['|']) ∧
       innerCells ['|', ' ', 'a', ' ', '|', ' ', 'b'] = [['a']]) :=
  ⟨by decide, split_discards_ends ['|', ' ', 'a', ' '] [' ', 'b'] (by decide)⟩
